import Mathlib

/-!
Shallow embedding of `src/updated_inventory_system.py`, a minimal in-memory
inventory tracker: a module-level dict `stock_data` mapping item names to
quantities, with operations `add_item`, `remove_item`, `get_qty`,
`load_data`, `save_data`, `print_data`, `check_low_items`, and a `main`
demonstration scenario.

The Python dict is modelled as an insertion-ordered association list
`List (String × Int)` with the standard CPython dict semantics:
lookup returns the first (and, in an actual dict, only) binding;
assignment to an existing key updates the value in place keeping its
position; assignment to a fresh key appends at the end; `del` removes the
binding.  Quantities (Python `int | float`) are modelled as `Int`; every
property claimed of the code is order-theoretic and does not depend on
fractional values.  The file system is modelled as a map from path to
optional file content, where content either parses as a JSON object of
string keys and numeric values or is malformed.
-/

namespace Inventory

/-- A Python value as far as `add_item`'s `isinstance` checks observe it:
a string, a number, or anything else. -/
inductive PyVal where
  | str (s : String)
  | num (n : Int)
  | other
deriving DecidableEq

/-- `isinstance(item, str)`. -/
def PyVal.isStr : PyVal → Bool
  | .str _ => true
  | _ => false

/-- `isinstance(qty, (int, float))`. -/
def PyVal.isNum : PyVal → Bool
  | .num _ => true
  | _ => false

/-- The stock table: the module-level dict `stock_data`, as an
insertion-ordered association list. -/
abbrev StockTable := List (String × Int)

/-- `stock_data.get(k, 0)`: the value of the first binding of `k`, or 0. -/
def dictGet : StockTable → String → Int
  | [], _ => 0
  | p :: rest, k => if p.1 = k then p.2 else dictGet rest k

/-- `k in stock_data`. -/
def dictMem : StockTable → String → Bool
  | [], _ => false
  | p :: rest, k => p.1 = k || dictMem rest k

/-- `stock_data[k] = v`: update the existing binding in place, else append. -/
def dictSet : StockTable → String → Int → StockTable
  | [], k, v => [(k, v)]
  | p :: rest, k, v => if p.1 = k then (k, v) :: rest else p :: dictSet rest k v

/-- `del stock_data[k]`: remove the binding of `k`. -/
def dictErase : StockTable → String → StockTable
  | [], _ => []
  | p :: rest, k => if p.1 = k then rest else p :: dictErase rest k

/-- `stock_data.update(data)`: assign each pair of `entries` in order. -/
def dictUpdateAll (d : StockTable) (entries : List (String × Int)) : StockTable :=
  entries.foldl (fun acc p => dictSet acc p.1 p.2) d

/-- A message printed on standard output by the store's operations. -/
inductive OutMsg where
  /-- `Warning: Negative quantity for {item} ignored.` -/
  | negQtyWarning (item : String)
  /-- `Warning: Tried to remove missing item {item}` -/
  | missingItemWarning (item : String)
deriving DecidableEq

/-- One entry of the caller-supplied `logs` list:
`f"{datetime.now()}: Added {qty} of {item}"`. -/
structure LogEntry where
  timestamp : String
  item : String
  qty : Int
deriving DecidableEq

/-- The three observable effects of one `add_item` call: the stock table
afterwards, the `logs` list afterwards, and what was printed. -/
structure AddResult where
  stock : StockTable
  logs : List LogEntry
  out : List OutMsg
deriving DecidableEq

/-- `add_item(item, qty, logs)` from the source (lines 14-34).  The
`now` argument stands for `datetime.now()`.  The Python default
`logs=None` allocates a fresh discarded list, observationally identical
to passing a list the caller never reads. -/
def add_item (st : StockTable) (item : PyVal) (qty : PyVal)
    (logs : List LogEntry) (now : String) : AddResult :=
  match item, qty with
  | .str s, .num q =>
    if q < 0 then
      ⟨st, logs, [.negQtyWarning s]⟩
    else
      ⟨dictSet st s (dictGet st s + q), logs ++ [⟨now, s, q⟩], []⟩
  | _, _ => ⟨st, logs, []⟩

/-- `remove_item(item, qty)` from the source (lines 37-53):
`stock_data[item] -= qty` raises `KeyError` when `item` is absent, caught
to print a warning; otherwise the decremented value is stored and the
binding deleted when it is ≤ 0. -/
def remove_item (st : StockTable) (item : String) (qty : Int) :
    StockTable × List OutMsg :=
  if dictMem st item then
    let newQty := dictGet st item - qty
    if newQty ≤ 0 then (dictErase st item, [])
    else (dictSet st item newQty, [])
  else (st, [.missingItemWarning item])

/-- `get_qty(item)` from the source (lines 56-66): `stock_data.get(item, 0)`. -/
def get_qty (st : StockTable) (item : String) : Int :=
  dictGet st item

/-- `check_low_items(threshold)` from the source (lines 114-124): the list
comprehension `[item for item, qty in stock_data.items() if qty < threshold]`. -/
def check_low_items (st : StockTable) (threshold : Int) : List String :=
  (st.filter (fun p => p.2 < threshold)).map Prod.fst

/-- `print_data()` from the source (lines 102-111): the lines printed, a
header then `f"{item} -> {qty}"` per binding in iteration order. -/
def print_data (st : StockTable) : List String :=
  "Items Report" :: st.map (fun p => p.1 ++ " -> " ++ toString p.2)

/-- What a file on disk holds, as far as `load_data` observes it: a JSON
object of string keys and numeric values (the only shape `save_data`
writes and the spec's file format admits), or content on which
`json.load` raises. -/
inductive FileContent where
  | jsonTable (entries : List (String × Int))
  | malformed
deriving DecidableEq

/-- The file system: each path either holds a file or does not. -/
def FS := String → Option FileContent

/-- `save_data(file)` from the source (lines 88-99): serialize the table
as a JSON object, key order as produced by the dict, overwriting `path`. -/
def save_data (fs : FS) (st : StockTable) (path : String) : FS :=
  fun p => if p = path then some (.jsonTable st) else fs p

/-- `load_data(file)` from the source (lines 69-85).  Returns the stock
table after the call and whether an exception propagated.  A missing file
raises `FileNotFoundError`, caught: the table is cleared.  Malformed
content makes `json.load` raise before `stock_data.clear()` runs, and the
exception is not caught: the table is untouched.  Otherwise the table is
cleared and updated with the parsed object. -/
def load_data (fs : FS) (st : StockTable) (path : String) :
    StockTable × Bool :=
  match fs path with
  | none => ([], false)
  | some .malformed => (st, true)
  | some (.jsonTable entries) => (dictUpdateAll [] entries, false)

/-- The table built by `main()`'s demonstration calls (lines 135-139):
add apple 10, banana 2, grapes 5, then remove orange 1. -/
def scenarioTable : StockTable :=
  let t1 := (add_item [] (.str "apple") (.num 10) [] "t").stock
  let t2 := (add_item t1 (.str "banana") (.num 2) [] "t").stock
  let t3 := (add_item t2 (.str "grapes") (.num 5) [] "t").stock
  (remove_item t3 "orange" 1).1

/-- The spec's data-model invariant: every stored quantity is strictly
greater than zero. -/
def InvPos (st : StockTable) : Prop := ∀ p ∈ st, 0 < p.2

instance (st : StockTable) : Decidable (InvPos st) :=
  inferInstanceAs (Decidable (∀ p ∈ st, 0 < p.2))

/-- Applying a sequence of `add_item` calls in order. -/
def applyAdds (st : StockTable) (ops : List (String × Int)) : StockTable :=
  ops.foldl (fun acc p => (add_item acc (.str p.1) (.num p.2) [] "t").stock) st

/-! ### Lemmas about the dict model -/

theorem dictGet_dictSet (st : StockTable) (k : String) (v : Int) (x : String) :
    dictGet (dictSet st k v) x = if k = x then v else dictGet st x := by
  induction st with
  | nil =>
    by_cases h : k = x <;> simp [dictSet, dictGet, h]
  | cons p rest ih =>
    simp only [dictSet]
    by_cases hp : p.1 = k
    · subst hp
      simp only [if_pos rfl, dictGet]
      by_cases h : p.1 = x <;> simp [h]
    · rw [if_neg hp]
      simp only [dictGet]
      by_cases hpx : p.1 = x
      · have hkx : ¬ k = x := fun hk => hp (by rw [hpx, hk])
        simp [hpx, hkx]
      · simp [hpx, ih]

theorem dictMem_iff_mem_keys (st : StockTable) (x : String) :
    dictMem st x = true ↔ x ∈ st.map Prod.fst := by
  induction st with
  | nil => simp [dictMem]
  | cons p rest ih =>
    simp only [dictMem, Bool.or_eq_true, decide_eq_true_eq, List.map_cons,
      List.mem_cons, ih]
    exact or_congr ⟨fun h => h.symm, fun h => h.symm⟩ Iff.rfl

theorem dictGet_eq_zero_of_not_mem (st : StockTable) (x : String)
    (h : dictMem st x = false) : dictGet st x = 0 := by
  induction st with
  | nil => rfl
  | cons p rest ih =>
    simp only [dictMem, Bool.or_eq_false_iff, decide_eq_false_iff_not] at h
    simp [dictGet, h.1, ih h.2]

theorem mem_dictSet (st : StockTable) (k : String) (v : Int)
    (p : String × Int) (h : p ∈ dictSet st k v) : p = (k, v) ∨ p ∈ st := by
  induction st with
  | nil => simp [dictSet] at h; simp [h]
  | cons q rest ih =>
    by_cases hq : q.1 = k
    · simp [dictSet, hq] at h
      rcases h with h | h
      · exact Or.inl h
      · exact Or.inr (List.mem_cons_of_mem _ h)
    · simp [dictSet, hq] at h
      rcases h with h | h
      · exact Or.inr (by simp [h])
      · rcases ih h with h' | h'
        · exact Or.inl h'
        · exact Or.inr (List.mem_cons_of_mem _ h')

theorem mem_dictErase (st : StockTable) (k : String)
    (p : String × Int) (h : p ∈ dictErase st k) : p ∈ st := by
  induction st with
  | nil => simp [dictErase] at h
  | cons q rest ih =>
    by_cases hq : q.1 = k
    · simp [dictErase, hq] at h
      exact List.mem_cons_of_mem _ h
    · simp [dictErase, hq] at h
      rcases h with h | h
      · simp [h]
      · exact List.mem_cons_of_mem _ (ih h)

theorem keys_dictErase_of_nodup (st : StockTable) (k : String)
    (hnd : (st.map Prod.fst).Nodup) : dictMem (dictErase st k) k = false := by
  induction st with
  | nil => rfl
  | cons q rest ih =>
    simp only [List.map_cons, List.nodup_cons] at hnd
    by_cases hq : q.1 = k
    · simp only [dictErase, hq, if_true]
      rw [← Bool.not_eq_true, dictMem_iff_mem_keys]
      exact fun hm => hnd.1 (hq ▸ hm)
    · simp [dictErase, dictMem, hq, ih hnd.2]

theorem dictSet_of_not_mem (st : StockTable) (k : String) (v : Int)
    (h : dictMem st k = false) : dictSet st k v = st ++ [(k, v)] := by
  induction st with
  | nil => rfl
  | cons p rest ih =>
    simp only [dictMem, Bool.or_eq_false_iff, decide_eq_false_iff_not] at h
    simp [dictSet, h.1, ih h.2]

theorem dictMem_append (d d' : StockTable) (x : String) :
    dictMem (d ++ d') x = (dictMem d x || dictMem d' x) := by
  induction d with
  | nil => simp [dictMem]
  | cons p rest ih => simp [dictMem, ih, Bool.or_assoc]

theorem dictUpdateAll_of_fresh (entries : List (String × Int)) :
    ∀ d : StockTable, (entries.map Prod.fst).Nodup →
    (∀ p ∈ entries, dictMem d p.1 = false) →
    dictUpdateAll d entries = d ++ entries := by
  induction entries with
  | nil => intro d _ _; simp [dictUpdateAll]
  | cons p rest ih =>
    intro d hnd hfresh
    simp only [List.map_cons, List.nodup_cons] at hnd
    have hstep : dictSet d p.1 p.2 = d ++ [(p.1, p.2)] :=
      dictSet_of_not_mem d p.1 p.2 (hfresh p (List.mem_cons_self _ _))
    have hrest : ∀ q ∈ rest, dictMem (d ++ [(p.1, p.2)]) q.1 = false := by
      intro q hq
      rw [dictMem_append]
      have h1 : dictMem d q.1 = false := hfresh q (List.mem_cons_of_mem _ hq)
      have h2 : dictMem [(p.1, p.2)] q.1 = false := by
        simp only [dictMem, Bool.or_false, decide_eq_false_iff_not]
        exact fun hpq => hnd.1 (hpq ▸ List.mem_map_of_mem Prod.fst hq)
      simp [h1, h2]
    calc dictUpdateAll d (p :: rest)
        = dictUpdateAll (dictSet d p.1 p.2) rest := rfl
      _ = dictUpdateAll (d ++ [(p.1, p.2)]) rest := by rw [hstep]
      _ = (d ++ [(p.1, p.2)]) ++ rest := ih _ hnd.2 hrest
      _ = d ++ p :: rest := by simp

theorem dictGet_nonneg_of_invPos (st : StockTable) (x : String)
    (h : InvPos st) : 0 ≤ dictGet st x := by
  induction st with
  | nil => simp [dictGet]
  | cons p rest ih =>
    simp only [dictGet]
    by_cases hp : p.1 = x
    · simp only [hp, if_true]
      exact le_of_lt (h p (List.mem_cons_self _ _))
    · simp only [hp, if_false]
      exact ih (fun q hq => h q (List.mem_cons_of_mem _ hq))

theorem mem_keys_of_mem_check_low (st : StockTable) (t : Int) (x : String)
    (h : x ∈ check_low_items st t) : x ∈ st.map Prod.fst := by
  rcases List.mem_map.mp h with ⟨p, hp, rfl⟩
  exact List.mem_map_of_mem _ (List.mem_of_mem_filter hp)

theorem invPos_dictUpdateAll (entries : List (String × Int)) :
    ∀ d : StockTable, InvPos d → (∀ p ∈ entries, 0 < p.2) →
    InvPos (dictUpdateAll d entries) := by
  induction entries with
  | nil => intro d hd _; exact hd
  | cons p rest ih =>
    intro d hd hpos
    have hstep : InvPos (dictSet d p.1 p.2) := by
      intro q hq
      rcases mem_dictSet d p.1 p.2 q hq with h | h
      · exact h ▸ hpos p (List.mem_cons_self _ _)
      · exact hd q h
    exact ih _ hstep (fun q hq => hpos q (List.mem_cons_of_mem _ hq))

theorem get_qty_add_item (st : StockTable) (s : String) (q : Int) (x : String)
    (logs : List LogEntry) (now : String) (h : 0 ≤ q) :
    get_qty (add_item st (.str s) (.num q) logs now).stock x =
      get_qty st x + if s = x then q else 0 := by
  have hq : ¬ q < 0 := not_lt.mpr h
  simp only [add_item, hq, if_false, get_qty]
  rw [dictGet_dictSet]
  by_cases hsx : s = x
  · subst hsx; simp
  · simp [hsx]

/-! ### The claims -/

/-- C5: for every text item and negative numeric qty, `add_item` emits the
negative-quantity warning and mutates nothing: the stock table and the log
list are exactly as before the call. -/
theorem C5_negative_add_warns_no_mutation (st : StockTable) (s : String)
    (q : Int) (logs : List LogEntry) (now : String) (h : q < 0) :
    add_item st (.str s) (.num q) logs now = ⟨st, logs, [.negQtyWarning s]⟩ := by
  simp [add_item, h]

theorem C5_negative_add_warns_no_mutation_witness :
    add_item [("x", 4)] (.str "x") (.num (-1)) [] "t" =
      ⟨[("x", 4)], [], [.negQtyWarning "x"]⟩ :=
  C5_negative_add_warns_no_mutation [("x", 4)] "x" (-1) [] "t" (by decide)

/-- C6: when the item is not a string or the qty is not a number,
`add_item` is a silent no-op: table unchanged, logs unchanged, nothing
printed. -/
theorem C6_type_violation_silent_noop (st : StockTable) (item qty : PyVal)
    (logs : List LogEntry) (now : String)
    (h : item.isStr = false ∨ qty.isNum = false) :
    add_item st item qty logs now = ⟨st, logs, []⟩ := by
  cases item <;> cases qty <;> first
    | rfl
    | (simp [PyVal.isStr, PyVal.isNum] at h)

theorem C6_type_violation_silent_noop_witness :
    add_item [("x", 4)] (.num 123) (.num 5) [] "t" = ⟨[("x", 4)], [], []⟩ ∧
    add_item [("x", 4)] (.str "x") (.str "5") [] "t" = ⟨[("x", 4)], [], []⟩ :=
  ⟨C6_type_violation_silent_noop [("x", 4)] (.num 123) (.num 5) [] "t"
      (Or.inl rfl),
   C6_type_violation_silent_noop [("x", 4)] (.str "x") (.str "5") [] "t"
      (Or.inr rfl)⟩

/-- C7: removing an item absent from the table raises no exception (the
`KeyError` is caught), prints the missing-item warning, and leaves the
table unchanged. -/
theorem C7_remove_missing_warns_no_mutation (st : StockTable) (item : String)
    (qty : Int) (h : dictMem st item = false) :
    remove_item st item qty = (st, [.missingItemWarning item]) := by
  simp [remove_item, h]

theorem C7_remove_missing_warns_no_mutation_witness :
    remove_item [("x", 4)] "missing" 1 =
      ([("x", 4)], [.missingItemWarning "missing"]) :=
  C7_remove_missing_warns_no_mutation [("x", 4)] "missing" 1 (by decide)

/-- C8: loading from a path with no file raises no error and leaves the
stock table empty, whatever it held before. -/
theorem C8_load_missing_file_clears (fs : FS) (st : StockTable)
    (path : String) (h : fs path = none) :
    load_data fs st path = ([], false) := by
  simp [load_data, h]

theorem C8_load_missing_file_clears_witness :
    load_data (fun _ => none) [("x", 4)] "nonexistent.json" = ([], false) :=
  C8_load_missing_file_clears (fun _ => none) [("x", 4)] "nonexistent.json" rfl

/-- C10: loading from a path whose file exists but does not parse as JSON
propagates the parse error and leaves the stock table exactly as before
the call: `stock_data.clear()` runs only after `json.load` succeeds. -/
theorem C10_load_parse_error_atomic (fs : FS) (st : StockTable)
    (path : String) (h : fs path = some .malformed) :
    load_data fs st path = (st, true) := by
  simp [load_data, h]

theorem C10_load_parse_error_atomic_witness :
    load_data (fun _ => some .malformed) [("x", 4)] "bad.json" =
      ([("x", 4)], true) :=
  C10_load_parse_error_atomic (fun _ => some .malformed) [("x", 4)] "bad.json" rfl

/-- C1 fails as stated: `add_item("x", 0)` on an empty table stores the
entry `("x", 0)`, whose quantity is not strictly positive — only
`qty < 0` is rejected, so `qty = 0` for an absent item reaches the
assignment. -/
theorem C1_counterexample :
    (add_item [] (.str "x") (.num 0) [] "t").stock = [("x", 0)] ∧
    ¬ InvPos (add_item [] (.str "x") (.num 0) [] "t").stock :=
  ⟨rfl, by decide⟩

/-- C1 amended: the strict-positivity invariant is preserved by
`remove_item` always, by `add_item` whenever the added quantity is
nonzero, and established by `load_data` whenever every value in the
loaded file is strictly positive; `add_item` with qty 0 on an absent item
stores a zero entry, and `load_data` stores the file's values
unfiltered. -/
theorem C1_invariant_amended :
    (∀ (st : StockTable) (item : String) (qty : Int),
      InvPos st → InvPos (remove_item st item qty).1) ∧
    (∀ (st : StockTable) (s : String) (q : Int) (logs : List LogEntry)
      (now : String), InvPos st → q ≠ 0 →
      InvPos (add_item st (.str s) (.num q) logs now).stock) ∧
    (∀ (fs : FS) (st : StockTable) (path : String)
      (entries : List (String × Int)),
      fs path = some (.jsonTable entries) → (∀ p ∈ entries, 0 < p.2) →
      InvPos (load_data fs st path).1) := by
  refine ⟨?_, ?_, ?_⟩
  · intro st item qty hinv
    by_cases hmem : dictMem st item
    · by_cases hle : dictGet st item - qty ≤ 0
      · simp only [remove_item, hmem, if_true, hle]
        exact fun p hp => hinv p (mem_dictErase st item p hp)
      · simp only [remove_item, hmem, if_true, hle, if_false]
        intro p hp
        rcases mem_dictSet _ _ _ p hp with h | h
        · rw [h]; exact lt_of_not_le hle
        · exact hinv p h
    · simp only [remove_item, hmem]
      simpa using hinv
  · intro st s q logs now hinv hq
    by_cases hneg : q < 0
    · simp only [add_item, hneg, if_true]
      exact hinv
    · simp only [add_item, hneg, if_false]
      intro p hp
      rcases mem_dictSet _ _ _ p hp with h | h
      · rw [h]
        have h0 : 0 < q := lt_of_le_of_ne (not_lt.mp hneg) (Ne.symm hq)
        have := dictGet_nonneg_of_invPos st s hinv
        omega
      · exact hinv p h
  · intro fs st path entries hfile hpos
    simp only [load_data, hfile]
    exact invPos_dictUpdateAll entries [] (by intro p hp; simp at hp) hpos

theorem C1_invariant_amended_witness :
    InvPos (remove_item [("a", 5)] "a" 2).1 ∧
    InvPos (add_item [("a", 5)] (.str "b") (.num 3) [] "t").stock ∧
    InvPos (load_data (fun _ => some (.jsonTable [("c", 7)])) [] "f").1 :=
  ⟨C1_invariant_amended.1 [("a", 5)] "a" 2 (by decide),
   C1_invariant_amended.2.1 [("a", 5)] "b" 3 [] "t" (by decide) (by decide),
   C1_invariant_amended.2.2 (fun _ => some (.jsonTable [("c", 7)])) [] "f"
     [("c", 7)] rfl (by decide)⟩

/-- C2: save followed by load on the same path reproduces the saved
table exactly, for every table whose keys are distinct (every Python dict
satisfies this), every prior file system, every prior table, and every
path. -/
theorem C2_save_load_roundtrip (fs : FS) (st st0 : StockTable)
    (path : String) (h : (st.map Prod.fst).Nodup) :
    load_data (save_data fs st path) st0 path = (st, false) := by
  have hsaved : save_data fs st path path = some (.jsonTable st) := by
    simp [save_data]
  simp only [load_data, hsaved]
  rw [dictUpdateAll_of_fresh st [] h (fun p _ => rfl)]
  simp

theorem C2_save_load_roundtrip_witness :
    load_data (save_data (fun _ => none) [("a", 2), ("b", 3)] "inventory.json")
      [("z", 9)] "inventory.json" = ([("a", 2), ("b", 3)], false) :=
  C2_save_load_roundtrip (fun _ => none) [("a", 2), ("b", 3)] [("z", 9)]
    "inventory.json" (by decide)

/-- C3: a sequence of valid adds with nonnegative quantities accumulates:
afterwards each item's quantity is its quantity before the sequence (0
when starting from the empty table) plus the sum of the quantities added
for that item. -/
theorem C3_add_accumulates (st : StockTable) (ops : List (String × Int))
    (x : String) (h : ∀ p ∈ ops, 0 ≤ p.2) :
    get_qty (applyAdds st ops) x =
      get_qty st x + ((ops.filter (fun p => p.1 = x)).map Prod.snd).sum := by
  induction ops generalizing st with
  | nil => simp [applyAdds]
  | cons p rest ih =>
    have h0 : 0 ≤ p.2 := h p (List.mem_cons_self _ _)
    have hrest : ∀ q ∈ rest, 0 ≤ q.2 := fun q hq => h q (List.mem_cons_of_mem _ hq)
    have hstep : applyAdds st (p :: rest) =
        applyAdds (add_item st (.str p.1) (.num p.2) [] "t").stock rest := rfl
    rw [hstep, ih _ hrest, get_qty_add_item st p.1 p.2 x [] "t" h0]
    by_cases hpx : p.1 = x
    · simp only [List.filter_cons, hpx, decide_True, if_true, List.map_cons,
        List.sum_cons]
      ring
    · simp only [List.filter_cons, hpx, decide_False, Bool.false_eq_true,
        if_false, add_zero]

theorem C3_add_accumulates_witness :
    get_qty (applyAdds [] [("x", 2), ("y", 7), ("x", 3)]) "x" =
      get_qty ([] : StockTable) "x" +
        ((([("x", 2), ("y", 7), ("x", 3)] : List (String × Int)).filter
          (fun p => p.1 = "x")).map Prod.snd).sum :=
  C3_add_accumulates [] [("x", 2), ("y", 7), ("x", 3)] "x" (by decide)

/-- C4: removing qty from a present item whose stored quantity minus qty
is ≤ 0 deletes the item: afterwards its quantity reads 0, it appears in
no low-stock result at any threshold, and it is absent from the full
listing's keys.  No upper bound on qty is enforced. -/
theorem C4_remove_to_zero_deletes (st : StockTable) (item : String)
    (qty : Int) (hnd : (st.map Prod.fst).Nodup)
    (hmem : dictMem st item = true)
    (hle : dictGet st item - qty ≤ 0) :
    get_qty (remove_item st item qty).1 item = 0 ∧
    (∀ t : Int, item ∉ check_low_items (remove_item st item qty).1 t) ∧
    item ∉ ((remove_item st item qty).1).map Prod.fst := by
  have hrem : (remove_item st item qty).1 = dictErase st item := by
    simp [remove_item, hmem, hle]
  have hnomem : dictMem (dictErase st item) item = false :=
    keys_dictErase_of_nodup st item hnd
  refine ⟨?_, ?_, ?_⟩
  · rw [hrem]
    exact dictGet_eq_zero_of_not_mem _ _ hnomem
  · intro t hlow
    rw [hrem] at hlow
    have hk := mem_keys_of_mem_check_low _ t item hlow
    rw [← dictMem_iff_mem_keys] at hk
    exact absurd hk (by simp [hnomem])
  · rw [hrem]
    intro hk
    rw [← dictMem_iff_mem_keys] at hk
    exact absurd hk (by simp [hnomem])

theorem C4_remove_to_zero_deletes_witness :
    get_qty (remove_item [("x", 3)] "x" 5).1 "x" = 0 ∧
    "x" ∉ check_low_items (remove_item [("x", 3)] "x" 5).1 5 ∧
    "x" ∉ ((remove_item [("x", 3)] "x" 5).1).map Prod.fst :=
  have h := C4_remove_to_zero_deletes [("x", 3)] "x" 5 (by decide) (by decide)
    (by decide)
  ⟨h.1, h.2.1 5, h.2.2⟩

/-- C9: `check_low_items` returns, in table iteration order, exactly the
item names with quantity strictly below the threshold (a sublist of the
keys, containing a name iff its quantity is below); it is a pure query;
and in the `main()` scenario, apple reads 10 and the low-stock list at
threshold 5 is exactly `["banana"]`. -/
theorem C9_check_low_items_spec :
    (∀ (st : StockTable) (t : Int),
      (check_low_items st t).Sublist (st.map Prod.fst)) ∧
    (∀ (st : StockTable) (t : Int) (x : String),
      x ∈ check_low_items st t ↔ ∃ q, (x, q) ∈ st ∧ q < t) ∧
    get_qty scenarioTable "apple" = 10 ∧
    check_low_items scenarioTable 5 = ["banana"] := by
  refine ⟨?_, ?_, by decide, by decide⟩
  · intro st t
    exact (List.filter_sublist st).map Prod.fst
  · intro st t x
    constructor
    · intro h
      rcases List.mem_map.mp h with ⟨p, hp, rfl⟩
      rcases List.mem_filter.mp hp with ⟨hmem, hlt⟩
      simp only [decide_eq_true_eq] at hlt
      exact ⟨p.2, by simpa using hmem, hlt⟩
    · rintro ⟨q, hq, hlt⟩
      exact List.mem_map.mpr
        ⟨(x, q), List.mem_filter.mpr ⟨hq, by simpa using hlt⟩, rfl⟩

theorem C9_check_low_items_spec_witness :
    ("banana" ∈ check_low_items scenarioTable 5 ↔
      ∃ q, ("banana", q) ∈ scenarioTable ∧ q < 5) ∧
    get_qty scenarioTable "apple" = 10 :=
  ⟨C9_check_low_items_spec.2.1 scenarioTable 5 "banana",
   C9_check_low_items_spec.2.2.1⟩

end Inventory
